import Mathlib

/-!
Verification of the slider value core (rc-slider style component).

Source files embedded here:
- src/src/Slider.tsx : Value Formatter (formatValue), Commit Controller
  (rawValues, triggerChange, changeToCloseValue, finishChange), mergedStep.
- src/unnamed/part_000 (hooks/useDrag) : Drag Tracker (updateCacheValue,
  onStartMove with its onMouseMove / onMouseUp listeners).

Numbers are modelled as exact rationals; JS numeric artifacts that matter to a
claim (Infinity / NaN from an unguarded division) are modelled separately by
the JSNum type.  JS Array.prototype.sort with the numeric comparator is
modelled as an ascending sort; shallowEqual on numeric arrays is elementwise
list equality.
-/

namespace Slider

/-- JS Math.round: rounds half toward positive infinity, Math.round(x) equals
the floor of x + 0.5. -/
def jsRound (q : ℚ) : ℤ := ⌊q + 1/2⌋

/-- JS Array.prototype.sort with comparator (a, b) => a - b: the list
reordered ascending (for numbers the comparator is a total preorder, so any
sorting algorithm yields the same ascending result). -/
def jsSortAsc (l : List ℚ) : List ℚ := List.insertionSort (· ≤ ·) l

/-- The slider props relevant to the value core (Slider.tsx lines 90-131):
min (default 0), max (default 100), step (default 1, the prop may be null,
modelled as none), the mark values of the computed markList (Slider.tsx
134-159, ascending), and the range / disabled flags. -/
structure Config where
  min : ℚ
  max : ℚ
  step : Option ℚ
  marks : List ℚ
  range : Bool
  disabled : Bool

/-- Slider.tsx line 131: mergedStep = (step <= 0 ? 1 : step).  In JS the
comparison null <= 0 is true (null coerces to 0), so a null step prop also
yields 1; the merged step is therefore never null. -/
def mergedStep (step : Option ℚ) : ℚ :=
  match step with
  | none => 1
  | some s => if s ≤ 0 then 1 else s

/-- Slider.tsx 184-185: Math.min(max, val) followed by Math.max(min, _). -/
def clampToRange (cfg : Config) (val : ℚ) : ℚ :=
  max cfg.min (min cfg.max val)

/-- Slider.tsx 190: the step-derived snap candidate
min + Math.round((clamped - min) / mergedStep) * mergedStep. -/
def stepCandidate (cfg : Config) (clamped : ℚ) : ℚ :=
  cfg.min + (jsRound ((clamped - cfg.min) / mergedStep cfg.step) : ℚ) *
    mergedStep cfg.step

/-- Slider.tsx 187-191: the candidate snap values: the mark values first, then
(mergedStep is never null, see mergedStep) the step-derived candidate. -/
def alignValues (cfg : Config) (clamped : ℚ) : List ℚ :=
  cfg.marks ++ [stepCandidate cfg clamped]

/-- Slider.tsx 197-203: one step of the forEach scan over the candidates; a
distance less than or equal to the running closeDist moves closeValue to the
current candidate. -/
def scanStep (clamped : ℚ) (acc : ℚ × ℚ) (a : ℚ) : ℚ × ℚ :=
  if |clamped - a| ≤ acc.2 then (a, |clamped - a|) else acc

/-- Slider.tsx 183-206: clamp the input into [min, max], build the candidate
list, then scan it starting from closeValue = alignValues[0] (the candidate
list is never empty) and closeDist = max - min, returning the final
closeValue. -/
def formatValue (cfg : Config) (val : ℚ) : ℚ :=
  let clamped := clampToRange cfg val
  let avs := alignValues cfg clamped
  (avs.foldl (scanStep clamped) (avs.headD 0, cfg.max - cfg.min)).1

/-- The value shape delivered to the onChange / onAfterChange callbacks: the
single element in non-range mode, the full sequence in range mode. -/
inductive Payload where
  | single : ℚ → Payload
  | seq : List ℚ → Payload
deriving DecidableEq

/-- Slider.tsx 212-224.  committed models rawValuesRef.current, the previously
reported value set; the onChange handler is taken as present; shallowEqual on
numeric arrays is elementwise equality.  Returns the emitted onChange payload
(none when the sorted next values equal the committed set) together with the
new authoritative value set handed to setValue. -/
def triggerChange (cfg : Config) (committed : List ℚ) (nextValues : List ℚ) :
    Option Payload × List ℚ :=
  let cloneNextValues := jsSortAsc nextValues
  let ev :=
    if cloneNextValues = committed then none
    else some (if cfg.range then Payload.seq cloneNextValues
               else Payload.single (cloneNextValues.headD 0))
  (ev, cloneNextValues)

/-- Slider.tsx 231-237: one step of the forEach over the handle values with
their indices; a distance less than or equal to the running valueDist moves
valueIndex to the current index. -/
def closeScanStep (newValue : ℚ) (acc : Nat × ℚ) (p : Nat × ℚ) : Nat × ℚ :=
  if |newValue - p.2| ≤ acc.2 then (p.1, |newValue - p.2|) else acc

/-- Slider.tsx 228-237: the handle index selected for a click-to-set, starting
from valueIndex = 0 and valueDist = max - min. -/
def closeValueIndex (cfg : Config) (values : List ℚ) (newValue : ℚ) : Nat :=
  (values.enum.foldl (closeScanStep newValue) (0, cfg.max - cfg.min)).1

/-- Slider.tsx 226-245: no-op when disabled, otherwise replace the selected
handle value with newValue and run triggerChange (the scan and the comparison
both read the committed rawValues). -/
def changeToCloseValue (cfg : Config) (committed : List ℚ) (newValue : ℚ) :
    Option Payload × List ℚ :=
  if cfg.disabled then (none, committed)
  else
    triggerChange cfg committed
      (committed.set (closeValueIndex cfg committed newValue) newValue)

/-- The host-supplied value prop: absent (undefined or null), a scalar, or an
array. -/
inductive HostValue where
  | nothing : HostValue
  | scalar : ℚ → HostValue
  | array : List ℚ → HostValue

/-- Slider.tsx 162-171: the useMergedState postState normalization of the
host value. -/
def postState : HostValue → List ℚ
  | HostValue.nothing => []
  | HostValue.scalar v => [v]
  | HostValue.array vs => vs

/-- Slider.tsx 173-181: const [val0 = min, val1 = min] = mergedValue; range
mode reports [val0, val1] sorted ascending, otherwise [val0]. -/
def rawValues (cfg : Config) (mergedValue : List ℚ) : List ℚ :=
  let val0 := mergedValue.getD 0 cfg.min
  let val1 := mergedValue.getD 1 cfg.min
  if cfg.range then jsSortAsc [val0, val1] else [val0]

/-- Slider.tsx 275-280: the payload the onAfterChange callback would receive,
built from rawValuesRef.current. -/
def finishChange (cfg : Config) (committed : List ℚ) : Payload :=
  if cfg.range then Payload.seq committed else Payload.single (committed.headD 0)

/-- Slider.tsx 128: the resolved direction. -/
inductive Direction where
  | ltr : Direction
  | rtl : Direction
  | vertical : Direction
deriving DecidableEq

/-- The containerRef.current.getBoundingClientRect() fields read by the
useDrag mousemove listener. -/
structure Rect where
  width : ℚ
  height : ℚ

/-- hooks/useDrag lines 44-60 (exact-arithmetic view, meaningful for a nonzero
width): offsetX and offsetY are both computed and the rect is read at move
time, but only the rtl branch is distinguished -- every other direction,
vertical included, uses offsetX / width; offsetY and height are read but never
used. -/
def moveOffsetPercent (direction : Direction) (startX startY moveX moveY : ℚ)
    (rect : Rect) : ℚ :=
  let offsetX := moveX - startX
  let _offsetY := moveY - startY
  if direction = Direction.rtl then -offsetX / rect.width
  else offsetX / rect.width

/-- hooks/useDrag lines 22-34: read the origin value of the dragged handle
from the cache, add offsetPercent * (max - min), format, and write the result
back at valueIndex (the triggerChange call it also performs is modelled in
gestureStep). -/
def updateCacheValue (cfg : Config) (cacheValues : List ℚ) (valueIndex : Nat)
    (offsetPercent : ℚ) : List ℚ :=
  let originValue := cacheValues.getD valueIndex 0
  let nextValue := originValue + offsetPercent * (cfg.max - cfg.min)
  cacheValues.set valueIndex (formatValue cfg nextValue)

/-- One pointer event inside a drag gesture: a mousemove carrying the page
coordinates and the rect measured at that move, or the terminating mouseup. -/
inductive DragEvent where
  | move : ℚ → ℚ → Rect → DragEvent
  | up : DragEvent

/-- The observable state threaded through one drag gesture of useDrag as wired
up at Slider.tsx 282-291: the working copy (cacheValues), the authoritative
committed set (rawValuesRef.current), the payloads emitted to onChange, the
payloads emitted to onAfterChange, and the dragging flag. -/
structure GestureState where
  cacheValues : List ℚ
  committed : List ℚ
  changeEvents : List Payload
  afterChangeEvents : List Payload
  dragging : Bool
deriving DecidableEq

/-- Processing of one event by the listeners installed at onStartMove
(hooks/useDrag 36-74) for handle valueIndex with start point (startX, startY):
a mousemove runs onMouseMove (lines 44-60), that is updateCacheValue together
with its triggerChange call; mouseup (lines 63-70) only removes the listeners
and clears the dragging flag -- the finishChange callback built at Slider.tsx
275-280 and passed as an extra eighth argument at Slider.tsx 291 is not among
the seven parameters of useDrag (hooks/useDrag 3-11) and is never invoked, so
no afterChange payload is ever appended. -/
def gestureStep (cfg : Config) (direction : Direction) (valueIndex : Nat)
    (startX startY : ℚ) (st : GestureState) : DragEvent → GestureState
  | DragEvent.move moveX moveY rect =>
      let offSetPercent := moveOffsetPercent direction startX startY moveX moveY rect
      let nextCache := updateCacheValue cfg st.cacheValues valueIndex offSetPercent
      let res := triggerChange cfg st.committed nextCache
      { st with
          cacheValues := nextCache
          committed := res.2
          changeEvents := st.changeEvents ++ res.1.toList }
  | DragEvent.up => { st with dragging := false }

/-- One whole gesture: onStartMove sets the dragging flag, then the pointer
events are processed in delivery order by the installed listeners. -/
def runGesture (cfg : Config) (direction : Direction) (valueIndex : Nat)
    (startX startY : ℚ) (st : GestureState) (events : List DragEvent) :
    GestureState :=
  events.foldl (gestureStep cfg direction valueIndex startX startY)
    { st with dragging := true }

/-- JS numbers at the granularity this core can observe: a finite value kept
exact, the two infinities, or NaN (signed zero is not distinguished).  Needed
because the useDrag mousemove listener divides by the container width with no
zero guard. -/
inductive JSNum where
  | fin : ℚ → JSNum
  | posInf : JSNum
  | negInf : JSNum
  | nan : JSNum
deriving DecidableEq

/-- IEEE negation. -/
def jsNeg : JSNum → JSNum
  | JSNum.fin q => JSNum.fin (-q)
  | JSNum.posInf => JSNum.negInf
  | JSNum.negInf => JSNum.posInf
  | JSNum.nan => JSNum.nan

/-- IEEE addition: NaN propagates, opposite infinities give NaN. -/
def jsAdd : JSNum → JSNum → JSNum
  | JSNum.fin a, JSNum.fin b => JSNum.fin (a + b)
  | JSNum.fin _, JSNum.posInf => JSNum.posInf
  | JSNum.fin _, JSNum.negInf => JSNum.negInf
  | JSNum.posInf, JSNum.fin _ => JSNum.posInf
  | JSNum.negInf, JSNum.fin _ => JSNum.negInf
  | JSNum.posInf, JSNum.posInf => JSNum.posInf
  | JSNum.negInf, JSNum.negInf => JSNum.negInf
  | _, _ => JSNum.nan

/-- IEEE subtraction. -/
def jsSub (a b : JSNum) : JSNum := jsAdd a (jsNeg b)

/-- IEEE multiplication: NaN propagates, infinity times zero gives NaN. -/
def jsMul : JSNum → JSNum → JSNum
  | JSNum.fin a, JSNum.fin b => JSNum.fin (a * b)
  | JSNum.fin a, JSNum.posInf =>
      if 0 < a then JSNum.posInf else if a < 0 then JSNum.negInf else JSNum.nan
  | JSNum.fin a, JSNum.negInf =>
      if 0 < a then JSNum.negInf else if a < 0 then JSNum.posInf else JSNum.nan
  | JSNum.posInf, JSNum.fin b =>
      if 0 < b then JSNum.posInf else if b < 0 then JSNum.negInf else JSNum.nan
  | JSNum.negInf, JSNum.fin b =>
      if 0 < b then JSNum.negInf else if b < 0 then JSNum.posInf else JSNum.nan
  | JSNum.posInf, JSNum.posInf => JSNum.posInf
  | JSNum.posInf, JSNum.negInf => JSNum.negInf
  | JSNum.negInf, JSNum.posInf => JSNum.negInf
  | JSNum.negInf, JSNum.negInf => JSNum.posInf
  | _, _ => JSNum.nan

/-- IEEE division (signed zero ignored): a finite value divided by zero gives
an infinity of the sign of the numerator, and NaN when the numerator is also
zero; NaN propagates; infinity over infinity gives NaN. -/
def jsDiv : JSNum → JSNum → JSNum
  | JSNum.fin a, JSNum.fin b =>
      if b = 0 then
        if 0 < a then JSNum.posInf else if a < 0 then JSNum.negInf else JSNum.nan
      else JSNum.fin (a / b)
  | JSNum.fin _, JSNum.posInf => JSNum.fin 0
  | JSNum.fin _, JSNum.negInf => JSNum.fin 0
  | JSNum.posInf, JSNum.fin b => if b < 0 then JSNum.negInf else JSNum.posInf
  | JSNum.negInf, JSNum.fin b => if b < 0 then JSNum.posInf else JSNum.negInf
  | _, _ => JSNum.nan

/-- JS Math.min: NaN if any argument is NaN, otherwise the smaller value. -/
def jsMin : JSNum → JSNum → JSNum
  | JSNum.nan, _ => JSNum.nan
  | _, JSNum.nan => JSNum.nan
  | JSNum.negInf, _ => JSNum.negInf
  | _, JSNum.negInf => JSNum.negInf
  | JSNum.posInf, b => b
  | a, JSNum.posInf => a
  | JSNum.fin a, JSNum.fin b => JSNum.fin (min a b)

/-- JS Math.max: NaN if any argument is NaN, otherwise the larger value. -/
def jsMax : JSNum → JSNum → JSNum
  | JSNum.nan, _ => JSNum.nan
  | _, JSNum.nan => JSNum.nan
  | JSNum.posInf, _ => JSNum.posInf
  | _, JSNum.posInf => JSNum.posInf
  | JSNum.negInf, b => b
  | a, JSNum.negInf => a
  | JSNum.fin a, JSNum.fin b => JSNum.fin (max a b)

/-- JS Math.abs. -/
def jsAbs : JSNum → JSNum
  | JSNum.fin q => JSNum.fin |q|
  | JSNum.nan => JSNum.nan
  | _ => JSNum.posInf

/-- JS Math.round lifted: the infinities and NaN pass through. -/
def jsRoundNum : JSNum → JSNum
  | JSNum.fin q => JSNum.fin (jsRound q : ℚ)
  | x => x

/-- The JS comparison a <= b: any comparison against NaN is false. -/
def jsLe : JSNum → JSNum → Bool
  | JSNum.nan, _ => false
  | _, JSNum.nan => false
  | JSNum.negInf, _ => true
  | _, JSNum.posInf => true
  | JSNum.posInf, _ => false
  | JSNum.fin _, JSNum.negInf => false
  | JSNum.fin a, JSNum.fin b => decide (a ≤ b)

/-- Slider.tsx 197-203 over JS numbers: one step of the candidate scan. -/
def scanStepJS (clamped : JSNum) (acc : JSNum × JSNum) (a : JSNum) :
    JSNum × JSNum :=
  if jsLe (jsAbs (jsSub clamped a)) acc.2 then (a, jsAbs (jsSub clamped a))
  else acc

/-- Slider.tsx 183-206 over JS numbers, for inputs that may be non-finite (the
unguarded division in useDrag can hand Infinity or NaN to formatValue). -/
def formatValueJS (cfg : Config) (val : JSNum) : JSNum :=
  let clamped := jsMax (JSNum.fin cfg.min) (jsMin (JSNum.fin cfg.max) val)
  let ms := mergedStep cfg.step
  let avs := cfg.marks.map JSNum.fin ++
    [jsAdd (JSNum.fin cfg.min)
      (jsMul (jsRoundNum (jsDiv (jsSub clamped (JSNum.fin cfg.min)) (JSNum.fin ms)))
        (JSNum.fin ms))]
  (avs.foldl (scanStepJS clamped) (avs.headD (JSNum.fin 0),
    JSNum.fin (cfg.max - cfg.min))).1

/-- hooks/useDrag 44-60 over JS numbers: the offset percent of one mousemove,
with the division by the width left unguarded exactly as in the source. -/
def moveOffsetPercentJS (direction : Direction) (startX startY moveX moveY : ℚ)
    (rect : Rect) : JSNum :=
  let offsetX := JSNum.fin (moveX - startX)
  let _offsetY := JSNum.fin (moveY - startY)
  if direction = Direction.rtl then jsDiv (jsNeg offsetX) (JSNum.fin rect.width)
  else jsDiv offsetX (JSNum.fin rect.width)

/-- hooks/useDrag 22-27 over JS numbers: the value written at the dragged
index by one move, originValue + offsetPercent * (max - min) then formatted. -/
def dragMoveValueJS (cfg : Config) (originValue : ℚ) (offsetPercent : JSNum) :
    JSNum :=
  formatValueJS cfg
    (jsAdd (JSNum.fin originValue) (jsMul offsetPercent (JSNum.fin (cfg.max - cfg.min))))

/-- Configuration of the snap examples: min 0, max 100, step 10, no marks. -/
def cfgStep10 : Config :=
  { min := 0, max := 100, step := some 10, marks := [], range := false,
    disabled := false }

/-- Snap example configuration with marks at 0 and 100 and step 10. -/
def cfgMarks : Config :=
  { min := 0, max := 100, step := some 10, marks := [0, 100], range := false,
    disabled := false }

/-- Configuration with a step that does not divide max - min. -/
def cfgStep40 : Config :=
  { min := 0, max := 100, step := some 40, marks := [], range := false,
    disabled := false }

/-- Two-handle range configuration, min 0, max 100, step 1. -/
def cfgRange : Config :=
  { min := 0, max := 100, step := some 1, marks := [], range := true,
    disabled := false }

/-- Single-handle configuration, min 0, max 100, step 1. -/
def cfgSingle : Config :=
  { min := 0, max := 100, step := some 1, marks := [], range := false,
    disabled := false }

/-! Helper lemmas -/

/-- The merged step is always positive (1 replaces every null or nonpositive
step prop). -/
theorem mergedStep_pos (st : Option ℚ) : 0 < mergedStep st := by
  cases st with
  | none => norm_num [mergedStep]
  | some s =>
      by_cases h : s ≤ 0
      · simp [mergedStep, h]
      · simp only [mergedStep, if_neg h]
        linarith [not_le.mp h]

/-- headD of a nonempty list is its head, hence a member. -/
theorem headD_mem {α : Type} (l : List α) (d : α) (h : l ≠ []) :
    l.headD d ∈ l := by
  cases l with
  | nil => exact absurd rfl h
  | cons a t => simp [List.headD]

/-- The candidate scan returns either the initial closeValue or one of the
scanned candidates. -/
theorem foldl_scanStep_fst (c : ℚ) :
    ∀ (l : List ℚ) (acc : ℚ × ℚ),
      (l.foldl (scanStep c) acc).1 = acc.1 ∨ (l.foldl (scanStep c) acc).1 ∈ l := by
  intro l
  induction l with
  | nil => intro acc; exact Or.inl rfl
  | cons a t ih =>
      intro acc
      simp only [List.foldl_cons]
      rcases ih (scanStep c acc a) with h | h
      · rw [h]
        by_cases hd : |c - a| ≤ acc.2
        · exact Or.inr (by simp [scanStep, hd])
        · exact Or.inl (by simp [scanStep, hd])
      · exact Or.inr (List.mem_cons_of_mem _ h)

/-- formatValue always returns one of the snap candidates. -/
theorem formatValue_mem (cfg : Config) (x : ℚ) :
    formatValue cfg x ∈ alignValues cfg (clampToRange cfg x) := by
  have hne : alignValues cfg (clampToRange cfg x) ≠ [] := by simp [alignValues]
  rcases foldl_scanStep_fst (clampToRange cfg x) (alignValues cfg (clampToRange cfg x))
      ((alignValues cfg (clampToRange cfg x)).headD 0, cfg.max - cfg.min) with h | h
  · rw [formatValue, h]
    exact headD_mem _ _ hne
  · exact h

/-- The clamped input lies within [min, max] whenever min is at most max. -/
theorem clampToRange_bounds (cfg : Config) (x : ℚ) (h : cfg.min ≤ cfg.max) :
    cfg.min ≤ clampToRange cfg x ∧ clampToRange cfg x ≤ cfg.max := by
  constructor
  · exact le_max_left _ _
  · exact max_le h (min_le_left _ _)

/-- The step-derived candidate lies within [min, max] for a clamped input
provided max - min is an integer multiple of the merged step. -/
theorem stepCandidate_bounds (cfg : Config) (clamped : ℚ)
    (h0 : cfg.min ≤ clamped) (h1 : clamped ≤ cfg.max)
    (hk : ∃ k : ℤ, cfg.max - cfg.min = (k : ℚ) * mergedStep cfg.step) :
    cfg.min ≤ stepCandidate cfg clamped ∧ stepCandidate cfg clamped ≤ cfg.max := by
  obtain ⟨k, hk⟩ := hk
  have hms := mergedStep_pos cfg.step
  have ht0 : 0 ≤ clamped - cfg.min := by linarith
  have htk : clamped - cfg.min ≤ (k : ℚ) * mergedStep cfg.step := by linarith
  have hj0 : 0 ≤ jsRound ((clamped - cfg.min) / mergedStep cfg.step) := by
    rw [jsRound, Int.le_floor]
    have : 0 ≤ (clamped - cfg.min) / mergedStep cfg.step :=
      div_nonneg ht0 (le_of_lt hms)
    push_cast
    linarith
  have hjk : jsRound ((clamped - cfg.min) / mergedStep cfg.step) ≤ k := by
    rw [jsRound]
    have hdk : (clamped - cfg.min) / mergedStep cfg.step ≤ (k : ℚ) := by
      rw [div_le_iff₀ hms]; linarith
    have h2 : (clamped - cfg.min) / mergedStep cfg.step + 1/2 < ((k + 1 : ℤ) : ℚ) := by
      push_cast; linarith
    have := Int.floor_lt.mpr h2
    omega
  constructor
  · have : 0 ≤ (jsRound ((clamped - cfg.min) / mergedStep cfg.step) : ℚ) *
        mergedStep cfg.step :=
      mul_nonneg (by exact_mod_cast hj0) (le_of_lt hms)
    rw [stepCandidate]; linarith
  · have : (jsRound ((clamped - cfg.min) / mergedStep cfg.step) : ℚ) *
        mergedStep cfg.step ≤ (k : ℚ) * mergedStep cfg.step :=
      mul_le_mul_of_nonneg_right (by exact_mod_cast hjk) (le_of_lt hms)
    rw [stepCandidate]; linarith

/-- The handle scan never increases the running distance, and its final
distance is at most the distance of every scanned handle. -/
theorem foldl_closeScanStep_le (v : ℚ) :
    ∀ (ps : List (Nat × ℚ)) (acc : Nat × ℚ),
      (ps.foldl (closeScanStep v) acc).2 ≤ acc.2 ∧
      ∀ p ∈ ps, (ps.foldl (closeScanStep v) acc).2 ≤ |v - p.2| := by
  intro ps
  induction ps with
  | nil => intro acc; exact ⟨le_refl _, by simp⟩
  | cons a t ih =>
      intro acc
      simp only [List.foldl_cons]
      obtain ⟨h1, h2⟩ := ih (closeScanStep v acc a)
      have hstep2 : (closeScanStep v acc a).2 ≤ acc.2 := by
        by_cases hd : |v - a.2| ≤ acc.2
        · simp [closeScanStep, hd]
        · simp [closeScanStep, hd]
      have hstepa : (closeScanStep v acc a).2 ≤ |v - a.2| := by
        by_cases hd : |v - a.2| ≤ acc.2
        · simp [closeScanStep, hd]
        · simp only [closeScanStep, if_neg hd]
          linarith [not_le.mp hd]
      refine ⟨le_trans h1 hstep2, ?_⟩
      intro p hp
      rcases List.mem_cons.mp hp with rfl | hp2
      · exact le_trans h1 hstepa
      · exact h2 p hp2

/-- The handle scan result is either the initial accumulator or the pair
(index, distance) of one of the scanned handles. -/
theorem foldl_closeScanStep_origin (v : ℚ) :
    ∀ (ps : List (Nat × ℚ)) (acc : Nat × ℚ),
      ps.foldl (closeScanStep v) acc = acc ∨
      ∃ p ∈ ps, ps.foldl (closeScanStep v) acc = (p.1, |v - p.2|) := by
  intro ps
  induction ps with
  | nil => intro acc; exact Or.inl rfl
  | cons a t ih =>
      intro acc
      simp only [List.foldl_cons]
      rcases ih (closeScanStep v acc a) with h | ⟨q, hq, hqe⟩
      · rw [h]
        by_cases hd : |v - a.2| ≤ acc.2
        · exact Or.inr ⟨a, List.mem_cons_self _ _, by simp [closeScanStep, hd]⟩
        · exact Or.inl (by simp [closeScanStep, hd])
      · exact Or.inr ⟨q, List.mem_cons_of_mem _ hq, hqe⟩

/-- If some scanned handle is within the initial distance budget, the handle
scan ends exactly at the pair of one scanned handle. -/
theorem foldl_closeScanStep_hit (v : ℚ) :
    ∀ (ps : List (Nat × ℚ)) (acc : Nat × ℚ),
      (∃ p ∈ ps, |v - p.2| ≤ acc.2) →
      ∃ p ∈ ps, ps.foldl (closeScanStep v) acc = (p.1, |v - p.2|) := by
  intro ps
  induction ps with
  | nil => intro acc h; simp at h
  | cons a t ih =>
      intro acc h
      obtain ⟨p, hp, hple⟩ := h
      by_cases hd : |v - a.2| ≤ acc.2
      · have hstep : closeScanStep v acc a = (a.1, |v - a.2|) := by
          simp [closeScanStep, hd]
        simp only [List.foldl_cons, hstep]
        rcases foldl_closeScanStep_origin v t (a.1, |v - a.2|) with he | ⟨q, hq, hqe⟩
        · exact ⟨a, List.mem_cons_self _ _, he⟩
        · exact ⟨q, List.mem_cons_of_mem _ hq, hqe⟩
      · rcases List.mem_cons.mp hp with rfl | hp2
        · exact absurd hple hd
        · have hstep : closeScanStep v acc a = acc := by simp [closeScanStep, hd]
          simp only [List.foldl_cons, hstep]
          obtain ⟨q, hq, hqe⟩ := ih acc ⟨p, hp2, hple⟩
          exact ⟨q, List.mem_cons_of_mem _ hq, hqe⟩

/-- Last-seen-wins: when the scanned indices are strictly increasing and never
below the accumulator index, every handle strictly after the finally selected
index sits strictly farther than the final distance (an exact tie would have
moved the selection to it). -/
theorem foldl_closeScanStep_last (v : ℚ) :
    ∀ (ps : List (Nat × ℚ)) (acc : Nat × ℚ),
      (∀ p ∈ ps, acc.1 ≤ p.1) →
      List.Pairwise (fun p q : Nat × ℚ => p.1 < q.1) ps →
      ∀ p ∈ ps, (ps.foldl (closeScanStep v) acc).1 < p.1 →
        (ps.foldl (closeScanStep v) acc).2 < |v - p.2| := by
  intro ps
  induction ps with
  | nil => intro acc _ _ p hp; simp at hp
  | cons a t ih =>
      intro acc hacc hpw p hp hlt
      obtain ⟨hhead, htail⟩ := List.pairwise_cons.mp hpw
      by_cases hd : |v - a.2| ≤ acc.2
      · have hstep : closeScanStep v acc a = (a.1, |v - a.2|) := by
          simp [closeScanStep, hd]
        rcases List.mem_cons.mp hp with rfl | hp2
        · exfalso
          rw [List.foldl_cons, hstep] at hlt
          rcases foldl_closeScanStep_origin v t (p.1, |v - p.2|) with he | ⟨q, hq, hqe⟩
          · rw [he] at hlt
            exact lt_irrefl _ hlt
          · rw [hqe] at hlt
            exact absurd hlt (not_lt.mpr (le_of_lt (hhead q hq)))
        · rw [List.foldl_cons, hstep] at hlt ⊢
          exact ih (a.1, |v - a.2|) (fun q hq => le_of_lt (hhead q hq)) htail p hp2 hlt
      · have hstep : closeScanStep v acc a = acc := by simp [closeScanStep, hd]
        rcases List.mem_cons.mp hp with rfl | hp2
        · rw [List.foldl_cons, hstep]
          calc (t.foldl (closeScanStep v) acc).2 ≤ acc.2 :=
                (foldl_closeScanStep_le v t acc).1
            _ < |v - p.2| := not_le.mp hd
        · rw [List.foldl_cons, hstep] at hlt ⊢
          exact ih acc (fun q hq => hacc q (List.mem_cons_of_mem _ hq)) htail p hp2 hlt

/-- The indices of an enumerated list are strictly increasing. -/
theorem enum_pairwise_fst {α : Type} (l : List α) :
    List.Pairwise (fun p q : Nat × α => p.1 < q.1) l.enum := by
  have h := List.pairwise_lt_range l.length
  rw [← List.enum_map_fst l] at h
  exact List.pairwise_map.mp h

/-- Every pair of an enumerated list is (index, element at that index). -/
theorem mem_enum_spec {α : Type} {l : List α} {p : Nat × α} (hp : p ∈ l.enum) :
    ∃ h : p.1 < l.length, l.get ⟨p.1, h⟩ = p.2 := by
  have h := List.mem_enum_iff_getElem?.mp hp
  rw [List.getElem?_eq_some] at h
  obtain ⟨h1, h2⟩ := h
  exact ⟨h1, by rw [List.get_eq_getElem]; exact h2⟩

/-- Conversely every (index, element) pair of a list is in its enumeration. -/
theorem get_mem_enum {α : Type} (l : List α) (i : Fin l.length) :
    (i.1, l.get i) ∈ l.enum := by
  rw [List.mem_enum_iff_getElem?]
  simp [List.getElem?_eq_getElem i.2, List.get_eq_getElem]

/-- No gesture event ever appends an afterChange payload: mousemove only
touches the cache, the committed set and the onChange payload list, and
mouseup only clears the dragging flag. -/
theorem foldl_gestureStep_after (cfg : Config) (direction : Direction)
    (valueIndex : Nat) (startX startY : ℚ) :
    ∀ (events : List DragEvent) (st : GestureState),
      (events.foldl (gestureStep cfg direction valueIndex startX startY)
        st).afterChangeEvents = st.afterChangeEvents := by
  intro events
  induction events with
  | nil => intro st; rfl
  | cons e t ih =>
      intro st
      rw [List.foldl_cons, ih]
      cases e <;> rfl

/-- No gesture event writes a cache index other than the dragged one. -/
theorem foldl_gestureStep_cache (cfg : Config) (direction : Direction)
    (valueIndex : Nat) (startX startY : ℚ) (j : Nat) (hj : j ≠ valueIndex) :
    ∀ (events : List DragEvent) (st : GestureState),
      (events.foldl (gestureStep cfg direction valueIndex startX startY)
        st).cacheValues[j]? = st.cacheValues[j]? := by
  intro events
  induction events with
  | nil => intro st; rfl
  | cons e t ih =>
      intro st
      rw [List.foldl_cons, ih]
      cases e with
      | up => rfl
      | move mx my rect =>
          show (updateCacheValue cfg st.cacheValues valueIndex _)[j]? =
            st.cacheValues[j]?
          rw [updateCacheValue]
          exact List.getElem?_set_ne (fun h => hj h.symm)

/-- The scan used by formatValue agrees over JS numbers and over rationals
when every scanned value is finite. -/
theorem foldl_scanStepJS_map (c : ℚ) :
    ∀ (l : List ℚ) (cv cd : ℚ),
      (l.map JSNum.fin).foldl (scanStepJS (JSNum.fin c)) (JSNum.fin cv, JSNum.fin cd) =
        (JSNum.fin (l.foldl (scanStep c) (cv, cd)).1,
         JSNum.fin (l.foldl (scanStep c) (cv, cd)).2) := by
  intro l
  induction l with
  | nil => intro cv cd; rfl
  | cons a t ih =>
      intro cv cd
      simp only [List.map_cons, List.foldl_cons]
      have hstep : scanStepJS (JSNum.fin c) (JSNum.fin cv, JSNum.fin cd) (JSNum.fin a) =
          (JSNum.fin (scanStep c (cv, cd) a).1, JSNum.fin (scanStep c (cv, cd) a).2) := by
        have habs : jsAbs (jsSub (JSNum.fin c) (JSNum.fin a)) = JSNum.fin |c - a| := by
          simp [jsSub, jsNeg, jsAdd, jsAbs, sub_eq_add_neg]
        by_cases hd : |c - a| ≤ cd
        · simp [scanStepJS, scanStep, habs, jsLe, hd]
        · simp [scanStepJS, scanStep, habs, jsLe, hd]
      rw [hstep]
      rcases h : scanStep c (cv, cd) a with ⟨r1, r2⟩
      exact ih r1 r2

/-- formatValue over JS numbers agrees with formatValue over rationals at
every finite input: the two embeddings of Slider.tsx 183-206 coincide where
both are meaningful. -/
theorem formatValueJS_fin (cfg : Config) (x : ℚ) :
    formatValueJS cfg (JSNum.fin x) = JSNum.fin (formatValue cfg x) := by
  have hms := mergedStep_pos cfg.step
  have hclamp : jsMax (JSNum.fin cfg.min) (jsMin (JSNum.fin cfg.max) (JSNum.fin x)) =
      JSNum.fin (clampToRange cfg x) := by
    simp [jsMin, jsMax, clampToRange]
  have hcand : jsAdd (JSNum.fin cfg.min)
      (jsMul (jsRoundNum (jsDiv (jsSub (JSNum.fin (clampToRange cfg x)) (JSNum.fin cfg.min))
        (JSNum.fin (mergedStep cfg.step)))) (JSNum.fin (mergedStep cfg.step))) =
      JSNum.fin (stepCandidate cfg (clampToRange cfg x)) := by
    simp [jsSub, jsNeg, jsAdd, jsDiv, hms.ne', jsRoundNum, jsMul, stepCandidate,
      sub_eq_add_neg]
  have hmap : cfg.marks.map JSNum.fin ++ [JSNum.fin (stepCandidate cfg (clampToRange cfg x))] =
      (alignValues cfg (clampToRange cfg x)).map JSNum.fin := by
    simp [alignValues]
  have hhead : ((alignValues cfg (clampToRange cfg x)).map JSNum.fin).headD (JSNum.fin 0) =
      JSNum.fin ((alignValues cfg (clampToRange cfg x)).headD 0) := by
    cases h : alignValues cfg (clampToRange cfg x) <;> simp [h]
  rw [formatValueJS, formatValue, hclamp, hcand, hmap, hhead, foldl_scanStepJS_map]

/-! Claims -/

/-- C1 (code bug): the after-change notification is never invoked.  For every
drag gesture, whatever its pointer events, the list of payloads emitted to
onAfterChange is left exactly as it was: useDrag declares seven parameters
(hooks/useDrag 3-11) while Slider.tsx 282-291 passes finishChange as an
eighth argument, and the mouseup listener (hooks/useDrag 63-70) only removes
the listeners and clears the dragging flag, so the claimed exactly-once
after-change invocation with the final sorted values never happens. -/
theorem C1_after_change_never_fired (cfg : Config) (direction : Direction)
    (valueIndex : Nat) (startX startY : ℚ) (st : GestureState)
    (events : List DragEvent) :
    (runGesture cfg direction valueIndex startX startY st events).afterChangeEvents =
      st.afterChangeEvents := by
  rw [runGesture, foldl_gestureStep_after]

/-- C2 counterexample: with min 0, max 100 and step 40 (which does not divide
max - min), the formatted value of 100 is the step candidate 120, outside
[min, max]: the clamp applies to the input only, never to the returned
candidate. -/
theorem C2_counterexample :
    formatValue cfgStep40 100 = 120 ∧ ¬ formatValue cfgStep40 100 ≤ cfgStep40.max := by
  have h : formatValue cfgStep40 100 = 120 := by
    norm_num [formatValue, clampToRange, alignValues, stepCandidate, mergedStep,
      jsRound, scanStep, cfgStep40, List.foldl]
  refine ⟨h, ?_⟩
  rw [h]
  norm_num [cfgStep40]

/-- C2 amended: formatValue clamps its input into [min, max], and the returned
snapped value lies in [min, max] for every input provided every mark lies in
[min, max] and max - min is an integer multiple of the merged step; without
that divisibility (or with an out-of-range mark) the returned candidate can
leave the range, as the counterexample shows. -/
theorem C2_formatValue_in_range (cfg : Config) (x : ℚ)
    (hmm : cfg.min ≤ cfg.max)
    (hmarks : ∀ m ∈ cfg.marks, cfg.min ≤ m ∧ m ≤ cfg.max)
    (hstep : ∃ k : ℤ, cfg.max - cfg.min = (k : ℚ) * mergedStep cfg.step) :
    cfg.min ≤ formatValue cfg x ∧ formatValue cfg x ≤ cfg.max := by
  have hmem := formatValue_mem cfg x
  rw [alignValues] at hmem
  rcases List.mem_append.mp hmem with h | h
  · exact hmarks _ h
  · rw [List.mem_singleton] at h
    rw [h]
    obtain ⟨hc0, hc1⟩ := clampToRange_bounds cfg x hmm
    exact stepCandidate_bounds cfg (clampToRange cfg x) hc0 hc1 hstep

/-- C2 witness: the amended range law at min 0, max 100, step 10, input 47. -/
theorem C2_witness :
    cfgStep10.min ≤ formatValue cfgStep10 47 ∧ formatValue cfgStep10 47 ≤ cfgStep10.max :=
  C2_formatValue_in_range cfgStep10 47 (by norm_num [cfgStep10])
    (by intro m hm; simp [cfgStep10] at hm)
    ⟨10, by norm_num [cfgStep10, mergedStep]⟩

/-- C3 counterexample: the scan uses a non-strict comparison, so an exact tie
moves the selection to the LATER candidate, not the first-enumerated one:
with step 10, min 0, max 100 and no marks formatValue(25) is 30 (not the
claimed 20), and with marks {0, 100} and step 10 formatValue(5) is 10 (not
the claimed 0). -/
theorem C3_counterexample :
    formatValue cfgStep10 25 = 30 ∧ formatValue cfgStep10 25 ≠ 20 ∧
    formatValue cfgMarks 5 = 10 ∧ formatValue cfgMarks 5 ≠ 0 := by
  have h1 : formatValue cfgStep10 25 = 30 := by
    norm_num [formatValue, clampToRange, alignValues, stepCandidate, mergedStep,
      jsRound, scanStep, cfgStep10, List.foldl]
  have h2 : formatValue cfgMarks 5 = 10 := by
    norm_num [formatValue, clampToRange, alignValues, stepCandidate, mergedStep,
      jsRound, scanStep, cfgMarks, List.foldl]
  exact ⟨h1, by rw [h1]; norm_num, h2, by rw [h2]; norm_num⟩

/-- C3 amended: when two snap candidates are at equal distance from the
clamped input, the scan selects the last-enumerated of the two (the
step-derived candidate, enumerated after the marks, wins exact ties), and the
step rounding itself sends midpoints up.  With step 10, min 0, max 100 and no
marks: formatValue(23) = 20, formatValue(26) = 30 and formatValue(25) = 30;
with marks {0, 100} and step 10: formatValue(5) = 10. -/
theorem C3_tie_goes_to_later_candidate :
    (∀ (c a b cv d : ℚ), |c - a| = |c - b| → |c - b| ≤ d →
        (List.foldl (scanStep c) (cv, d) [a, b]).1 = b) ∧
    formatValue cfgStep10 23 = 20 ∧ formatValue cfgStep10 26 = 30 ∧
    formatValue cfgStep10 25 = 30 ∧ formatValue cfgMarks 5 = 10 := by
  refine ⟨?_, ?_, ?_, ?_, ?_⟩
  · intro c a b cv d heq hle
    have ha : |c - a| ≤ d := heq.trans_le hle
    have hb : |c - b| ≤ |c - a| := heq.ge
    have h1 : scanStep c (cv, d) a = (a, |c - a|) := by simp [scanStep, ha]
    have h2 : scanStep c (a, |c - a|) b = (b, |c - b|) := by simp [scanStep, hb]
    simp [List.foldl, h1, h2]
  · norm_num [formatValue, clampToRange, alignValues, stepCandidate, mergedStep,
      jsRound, scanStep, cfgStep10, List.foldl]
  · norm_num [formatValue, clampToRange, alignValues, stepCandidate, mergedStep,
      jsRound, scanStep, cfgStep10, List.foldl]
  · norm_num [formatValue, clampToRange, alignValues, stepCandidate, mergedStep,
      jsRound, scanStep, cfgStep10, List.foldl]
  · norm_num [formatValue, clampToRange, alignValues, stepCandidate, mergedStep,
      jsRound, scanStep, cfgMarks, List.foldl]

/-- C3 witness: the tie rule applied at clamped input 5 with candidates 0 and
10 at equal distance: the scan ends on the later candidate 10. -/
theorem C3_witness :
    (List.foldl (scanStep 5) (0, 100) [0, 10]).1 = 10 :=
  C3_tie_goes_to_later_candidate.1 5 0 10 0 100 (by norm_num) (by norm_num)

/-- C4 (code bug): in vertical orientation the mousemove offset is still the
horizontal delta divided by the width, for every pointer pair and every rect
(the vertical delta and the height are computed but never used): a purely
vertical 10px motion over a 100x200 container yields fractional offset 0
even though the vertical fraction 10/200 is nonzero.  The rect itself is
queried at move time (it enters per move), which is the accurate half of the
claim. -/
theorem C4_vertical_uses_horizontal_axis :
    (∀ (startX startY moveX moveY : ℚ) (rect : Rect),
        moveOffsetPercent Direction.vertical startX startY moveX moveY rect =
          (moveX - startX) / rect.width) ∧
    moveOffsetPercent Direction.vertical 0 0 0 10 ⟨100, 200⟩ = 0 ∧
    (10 : ℚ) / 200 ≠ 0 := by
  refine ⟨fun sx sy mx my rect => rfl, ?_, by norm_num⟩
  norm_num [moveOffsetPercent]

/-- C5 (code bug): the division by the container width is unguarded.  With a
zero-width rect a 40px horizontal ltr drag produces the offset +Infinity (not
the claimed 0); pushing it through the move update turns a handle at 50 (min
0, max 100, step 1) into 100, so the dragged value changes instead of staying
unchanged; and with a zero pointer delta the offset is NaN, which
propagates. -/
theorem C5_zero_extent_not_guarded :
    moveOffsetPercentJS Direction.ltr 0 0 40 0 ⟨0, 100⟩ = JSNum.posInf ∧
    dragMoveValueJS cfgRange 50 JSNum.posInf = JSNum.fin 100 ∧
    JSNum.fin (100 : ℚ) ≠ JSNum.fin (50 : ℚ) ∧
    moveOffsetPercentJS Direction.ltr 0 0 0 0 ⟨0, 100⟩ = JSNum.nan := by
  refine ⟨?_, ?_, by simp, ?_⟩
  · norm_num [moveOffsetPercentJS, jsDiv]
    intro h
    exact Direction.noConfusion h
  · norm_num [dragMoveValueJS, formatValueJS, jsAdd, jsMul, jsSub, jsNeg, jsMin,
      jsMax, jsAbs, jsRoundNum, jsRound, jsDiv, jsLe, mergedStep, cfgRange,
      scanStepJS, List.foldl]
  · norm_num [moveOffsetPercentJS, jsDiv]
    intro h
    exact Direction.noConfusion h

/-- C6 counterexample: exact-distance ties are broken in favor of the HIGHEST
handle index, not the lowest: clicking at 25 with handles [20, 30] (both at
distance 5) replaces the second handle, yielding [20, 25] instead of the
claimed lowest-index result [25, 30]. -/
theorem C6_counterexample :
    (changeToCloseValue cfgRange [20, 30] 25).2 = [20, 25] ∧
    (changeToCloseValue cfgRange [20, 30] 25).2 ≠ [25, 30] := by
  have h : (changeToCloseValue cfgRange [20, 30] 25).2 = [20, 25] := by
    norm_num [changeToCloseValue, closeValueIndex, closeScanStep, triggerChange,
      jsSortAsc, cfgRange, List.enum, List.enumFrom, List.foldl,
      List.insertionSort, List.orderedInsert]
  refine ⟨h, ?_⟩
  rw [h]
  simp

/-- C6 amended: changeToCloseValue is a no-op when disabled; otherwise it
replaces exactly the selected handle with the target and runs triggerChange,
and the selected handle has minimum absolute distance to the target among all
handles (whenever some handle is within the max - min budget the scan starts
from), with exact-distance ties broken in favor of the HIGHEST handle index:
every handle strictly after the selected one is strictly farther.  For the
two-handle set [20, 80] and target 25 the result is [25, 80]. -/
theorem C6_closest_handle_selection :
    (∀ (cfg : Config) (committed : List ℚ) (newValue : ℚ), cfg.disabled = true →
        changeToCloseValue cfg committed newValue = (none, committed)) ∧
    (∀ (cfg : Config) (committed : List ℚ) (newValue : ℚ), cfg.disabled = false →
        changeToCloseValue cfg committed newValue =
          triggerChange cfg committed
            (committed.set (closeValueIndex cfg committed newValue) newValue)) ∧
    (∀ (cfg : Config) (values : List ℚ) (newValue : ℚ),
        (∃ v ∈ values, |newValue - v| ≤ cfg.max - cfg.min) →
        ∃ hi : closeValueIndex cfg values newValue < values.length,
          (∀ j (hj : j < values.length),
            |newValue - values.get ⟨closeValueIndex cfg values newValue, hi⟩| ≤
              |newValue - values.get ⟨j, hj⟩|) ∧
          (∀ j (hj : j < values.length), closeValueIndex cfg values newValue < j →
            |newValue - values.get ⟨closeValueIndex cfg values newValue, hi⟩| <
              |newValue - values.get ⟨j, hj⟩|)) ∧
    (changeToCloseValue cfgRange [20, 80] 25).2 = [25, 80] := by
  refine ⟨?_, ?_, ?_, ?_⟩
  · intro cfg committed newValue hdis
    simp [changeToCloseValue, hdis]
  · intro cfg committed newValue hdis
    simp [changeToCloseValue, hdis]
  · intro cfg values newValue hex
    obtain ⟨v, hv, hvle⟩ := hex
    obtain ⟨n, hn⟩ := List.mem_iff_get.mp hv
    have hmem : (n.1, v) ∈ values.enum := by rw [← hn]; exact get_mem_enum values n
    obtain ⟨p, hp, hpe⟩ := foldl_closeScanStep_hit newValue values.enum
      (0, cfg.max - cfg.min) ⟨(n.1, v), hmem, hvle⟩
    obtain ⟨hplen, hpget⟩ := mem_enum_spec hp
    have hcvi : closeValueIndex cfg values newValue = p.1 := by
      rw [closeValueIndex, hpe]
    have hi : closeValueIndex cfg values newValue < values.length := by
      rw [hcvi]; exact hplen
    have hgetc : values.get ⟨closeValueIndex cfg values newValue, hi⟩ = p.2 := by
      have he : (⟨closeValueIndex cfg values newValue, hi⟩ : Fin values.length) =
          ⟨p.1, hplen⟩ := Fin.ext hcvi
      rw [he, hpget]
    refine ⟨hi, ?_, ?_⟩
    · intro j hj
      rw [hgetc]
      have hle := (foldl_closeScanStep_le newValue values.enum
        (0, cfg.max - cfg.min)).2 (j, values.get ⟨j, hj⟩) (get_mem_enum values ⟨j, hj⟩)
      rw [hpe] at hle
      exact hle
    · intro j hj hlt
      rw [hgetc]
      have hlt2 : (values.enum.foldl (closeScanStep newValue)
          (0, cfg.max - cfg.min)).1 < (j, values.get ⟨j, hj⟩).1 := hlt
      have hlast := foldl_closeScanStep_last newValue values.enum
        (0, cfg.max - cfg.min) (fun q _ => Nat.zero_le _) (enum_pairwise_fst values)
        (j, values.get ⟨j, hj⟩) (get_mem_enum values ⟨j, hj⟩) hlt2
      rw [hpe] at hlast
      exact hlast
  · norm_num [changeToCloseValue, closeValueIndex, closeScanStep, triggerChange,
      jsSortAsc, cfgRange, List.enum, List.enumFrom, List.foldl,
      List.insertionSort, List.orderedInsert]

/-- C6 witness: the amended behavior at concrete inputs: disabled no-op,
replacement at the selected index, and minimality of the selection for the
two-handle set [20, 80] with target 25. -/
theorem C6_witness :
    changeToCloseValue
        { min := 0, max := 100, step := some 1, marks := [], range := true,
          disabled := true } [20, 80] 25 = (none, [20, 80]) ∧
    changeToCloseValue cfgRange [20, 80] 25 =
      triggerChange cfgRange [20, 80]
        (([20, 80] : List ℚ).set (closeValueIndex cfgRange [20, 80] 25) 25) ∧
    closeValueIndex cfgRange [20, 80] 25 < ([20, 80] : List ℚ).length := by
  refine ⟨C6_closest_handle_selection.1 _ [20, 80] 25 rfl,
    C6_closest_handle_selection.2.1 cfgRange [20, 80] 25 rfl, ?_⟩
  obtain ⟨hi, -, -⟩ := C6_closest_handle_selection.2.2.1 cfgRange [20, 80] 25
    ⟨20, by norm_num, by norm_num [cfgRange]⟩
  exact hi

/-- C7: triggerChange sorts the incoming values ascending, emits the onChange
payload exactly when the sorted sequence differs from the previously committed
set (the full sequence in range mode, its single element otherwise), always
stores the sorted sequence as the new committed set, and a second call with
the same values emits nothing: at most one notification for two identical
calls. -/
theorem C7_triggerChange_minimal (cfg : Config) (committed nextValues : List ℚ) :
    (triggerChange cfg committed nextValues).2 = jsSortAsc nextValues ∧
    List.Sorted (· ≤ ·) (triggerChange cfg committed nextValues).2 ∧
    ((triggerChange cfg committed nextValues).1 = none ↔
      jsSortAsc nextValues = committed) ∧
    (∀ p, (triggerChange cfg committed nextValues).1 = some p →
        p = if cfg.range then Payload.seq (jsSortAsc nextValues)
            else Payload.single ((jsSortAsc nextValues).headD 0)) ∧
    (triggerChange cfg (triggerChange cfg committed nextValues).2 nextValues).1 =
      none := by
  refine ⟨rfl, List.sorted_insertionSort _ _, ?_, ?_, ?_⟩
  · by_cases h : jsSortAsc nextValues = committed
    · simp [triggerChange, h]
    · simp [triggerChange, h]
  · intro p hp
    by_cases h : jsSortAsc nextValues = committed
    · simp [triggerChange, h] at hp
    · simp only [triggerChange, if_neg h, Option.some_inj] at hp
      exact hp.symm
  · simp [triggerChange]

/-- C7 witness: the theorem applied to range mode with committed [20, 80] and
next values [80, 25]: the payload is the sorted sequence, and the immediate
second call is silent. -/
theorem C7_witness :
    Payload.seq (jsSortAsc [80, 25]) =
      (if cfgRange.range then Payload.seq (jsSortAsc [80, 25])
       else Payload.single ((jsSortAsc [80, 25]).headD 0)) ∧
    (triggerChange cfgRange (triggerChange cfgRange [20, 80] [80, 25]).2
      [80, 25]).1 = none := by
  constructor
  · exact (C7_triggerChange_minimal cfgRange [20, 80] [80, 25]).2.2.2.1
      (Payload.seq (jsSortAsc [80, 25]))
      (by norm_num [triggerChange, jsSortAsc, List.insertionSort,
        List.orderedInsert, cfgRange])
  · exact (C7_triggerChange_minimal cfgRange [20, 80] [80, 25]).2.2.2.2

/-- C8 counterexample: rawValues performs no clamping: a host-supplied scalar
500 with min 0, max 100 is reported as [500], outside [min, max]. -/
theorem C8_counterexample :
    rawValues cfgSingle (postState (HostValue.scalar 500)) = [500] ∧
    ¬ ((500 : ℚ) ≤ cfgSingle.max) := by
  constructor
  · norm_num [rawValues, postState, cfgSingle]
  · norm_num [cfgSingle]

/-- C8 amended: the externally reported ValueSet always has exactly 2 elements
sorted ascending in range mode (missing elements defaulting to min) and
exactly 1 element in non-range mode; but its elements are taken verbatim from
the host value (or default to min) with no clamping, so they lie within
[min, max] exactly when the supplied host elements do -- an out-of-range host
value passes straight through, as the counterexample shows. -/
theorem C8_rawValues_shape (cfg : Config) (host : HostValue) :
    (cfg.range = true →
        (rawValues cfg (postState host)).length = 2 ∧
        List.Sorted (· ≤ ·) (rawValues cfg (postState host))) ∧
    (cfg.range = false → (rawValues cfg (postState host)).length = 1) ∧
    (∀ x ∈ rawValues cfg (postState host), x ∈ postState host ∨ x = cfg.min) ∧
    (cfg.min ≤ cfg.max → (∀ y ∈ postState host, cfg.min ≤ y ∧ y ≤ cfg.max) →
        ∀ x ∈ rawValues cfg (postState host), cfg.min ≤ x ∧ x ≤ cfg.max) := by
  have hgetD : ∀ i : Nat, (postState host).getD i cfg.min ∈ postState host ∨
      (postState host).getD i cfg.min = cfg.min := by
    intro i
    rw [List.getD_eq_getD_get?]
    cases h : (postState host).get? i with
    | none => exact Or.inr rfl
    | some a =>
        left
        simp only [Option.getD_some]
        exact List.get?_mem h
  have hmemor : ∀ x ∈ rawValues cfg (postState host),
      x ∈ postState host ∨ x = cfg.min := by
    intro x hx
    rw [rawValues] at hx
    by_cases hr : cfg.range
    · rw [if_pos hr] at hx
      rw [jsSortAsc, List.mem_insertionSort] at hx
      rcases List.mem_pair.mp hx with rfl | rfl
      · exact hgetD 0
      · exact hgetD 1
    · rw [if_neg hr, List.mem_singleton] at hx
      subst hx
      exact hgetD 0
  refine ⟨?_, ?_, hmemor, ?_⟩
  · intro hr
    constructor
    · rw [rawValues, if_pos (by rw [hr]), jsSortAsc]
      rw [List.length_insertionSort]
      rfl
    · rw [rawValues, if_pos (by rw [hr])]
      exact List.sorted_insertionSort _ _
  · intro hr
    rw [rawValues, if_neg (by rw [hr]; exact Bool.false_ne_true)]
    rfl
  · intro hmm hhost x hx
    rcases hmemor x hx with h | h
    · exact hhost x h
    · rw [h]
      exact ⟨le_refl _, hmm⟩

/-- C8 witness: the amended shape at range mode with host value [80, 20] and
in-range elements: two sorted elements, and the member 20 within [0, 100]. -/
theorem C8_witness :
    (rawValues cfgRange (postState (HostValue.array [80, 20]))).length = 2 ∧
    List.Sorted (· ≤ ·) (rawValues cfgRange (postState (HostValue.array [80, 20]))) ∧
    cfgRange.min ≤ (20 : ℚ) ∧ (20 : ℚ) ≤ cfgRange.max := by
  obtain ⟨h1, -, -, h4⟩ := C8_rawValues_shape cfgRange (HostValue.array [80, 20])
  obtain ⟨hl, hs⟩ := h1 rfl
  refine ⟨hl, hs, h4 (by norm_num [cfgRange]) ?_ 20 ?_⟩
  · intro y hy
    simp only [postState] at hy
    rcases List.mem_pair.mp hy with rfl | rfl <;> norm_num [cfgRange]
  · norm_num [rawValues, postState, cfgRange, jsSortAsc, List.insertionSort,
      List.orderedInsert]

/-- C9: throughout any single drag session on handle valueIndex, every index
other than valueIndex of the working copy keeps its pre-drag value: each
mousemove writes only the dragged index (hooks/useDrag 22-34 copies the cache
and sets one slot) and mouseup touches no values. -/
theorem C9_only_dragged_index_mutated (cfg : Config) (direction : Direction)
    (valueIndex : Nat) (startX startY : ℚ) (st : GestureState)
    (events : List DragEvent) (j : Nat) (hj : j ≠ valueIndex) :
    (runGesture cfg direction valueIndex startX startY st events).cacheValues[j]? =
      st.cacheValues[j]? := by
  rw [runGesture, foldl_gestureStep_cache cfg direction valueIndex startX startY j hj]

/-- C9 witness: a two-move gesture on handle 0 leaves index 1 of the working
copy at its pre-drag value. -/
theorem C9_witness :
    (runGesture cfgRange Direction.ltr 0 0 0
        ⟨[10, 50], [10, 50], [], [], false⟩
        [DragEvent.move 15 0 ⟨100, 10⟩, DragEvent.move 30 0 ⟨100, 10⟩,
          DragEvent.up]).cacheValues[1]? =
      (⟨[10, 50], [10, 50], [], [], false⟩ : GestureState).cacheValues[1]? :=
  C9_only_dragged_index_mutated cfgRange Direction.ltr 0 0 0 _ _ 1 (by norm_num)

/-- C10: formatValue is total: for every configuration and input the candidate
set is nonempty and formatValue returns one of its members, because the merged
step is always positive -- the null step prop and any nonpositive step are
both replaced by 1 (in JS null <= 0 holds, so the line 131 ternary yields 1
for null too). -/
theorem C10_formatValue_total :
    (∀ (cfg : Config) (x : ℚ),
        alignValues cfg (clampToRange cfg x) ≠ [] ∧
        formatValue cfg x ∈ alignValues cfg (clampToRange cfg x)) ∧
    (∀ st : Option ℚ, 0 < mergedStep st) ∧
    mergedStep none = 1 ∧
    (∀ s : ℚ, s ≤ 0 → mergedStep (some s) = 1) := by
  refine ⟨fun cfg x => ⟨by simp [alignValues], formatValue_mem cfg x⟩,
    mergedStep_pos, rfl, fun s hs => by simp [mergedStep, hs]⟩

/-- C10 witness: totality facts at concrete inputs: step 0 still yields a
positive merged step, a negative step is replaced by 1, and formatValue at 7
lands among the candidates. -/
theorem C10_witness :
    0 < mergedStep (some 0) ∧ mergedStep (some (-3)) = 1 ∧
    formatValue cfgStep10 7 ∈ alignValues cfgStep10 (clampToRange cfgStep10 7) :=
  ⟨C10_formatValue_total.2.1 (some 0),
   C10_formatValue_total.2.2.2 (-3) (by norm_num),
   (C10_formatValue_total.1 cfgStep10 7).2⟩

end Slider
